import Mathlib

/-!
Shallow embedding of the nixflow workflow engine (job lifecycle, progress
scanning, graph construction and the graph executor) together with proofs
about the embedded operations.

The embedding follows the Rust sources:
  * src/workflow/step/progress.rs        (progress scanner)
  * src/workflow/step/execution/mod.rs   (job state machine)
  * src/workflow/graph.rs                (job graph and graph executor)
  * src/workflow/specification/mod.rs    (specification parsing)

External effects (filesystem probes, process spawning and waiting, temporary
files) are represented by explicit environment parameters and event traces so
that every definition stays executable.
-/

namespace Nixflow

/-! ### Progress scanner (src/workflow/step/progress.rs) -/

/-- Strip one trailing carriage return from a line segment, as Rust's
str::lines does for lines terminated by a CRLF sequence. -/
def stripCR (l : String) : String :=
  match l.data.reverse with
  | '\r' :: rest => String.mk rest.reverse
  | _ => l

/-- Split a character list at every newline character, keeping empty
segments; the accumulator holds the current segment reversed. -/
def splitNlAux : List Char → List Char → List String
  | acc, [] => [String.mk acc.reverse]
  | acc, c :: rest =>
    if c = '\n' then String.mk acc.reverse :: splitNlAux [] rest
    else splitNlAux (c :: acc) rest

/-- Model of Rust's str::lines: split on newline characters, drop the final
empty segment produced by a trailing newline, and strip a carriage return from
every newline-terminated segment. -/
def rustLines (s : String) : List String :=
  match (splitNlAux [] s.data).reverse with
  | [] => []
  | last :: revFront =>
    let front := revFront.reverse.map stripCR
    if last = "" then front else front ++ [last]

/-- Model of Rust's u32 string parsing: an optional leading plus sign followed
by at least one decimal digit, rejecting values above the u32 maximum. -/
def parseU32 (s : String) : Option Nat :=
  let ds := match s.data with
    | '+' :: rest => rest
    | cs => cs
  if ds ≠ [] ∧ ds.all Char.isDigit then
    let v := ds.foldl (fun a c => a * 10 + (c.toNat - 48)) 0
    if v ≤ 4294967295 then some v else none
  else none

/-- Runtime progress scanner. The compiled indicator regex is abstracted as
the function returning the text of its single capture group on a matching
line (capture group 1 of the compiled pattern), and none on a line the
pattern does not match. -/
structure ProgressScanner where
  pattern : String
  capture : String → Option String

/-- Progress scanning errors, as in ProgressScanError. Only the variant
reachable from read_progress is modelled here. -/
inductive ProgressScanError where
  | nonIntegerMatch (pattern : String) (line : String) (captureMatch : String)
deriving DecidableEq, Repr

/-- Lines of the log matched by the indicator regex, paired with the captured
text: the filter_map over lines at the start of read_progress. -/
def matchedLines (sc : ProgressScanner) (logContents : String) : List (String × String) :=
  (rustLines logContents).filterMap (fun line => (sc.capture line).map (fun c => (line, c)))

/-- Parse the captured text of every matched line, stopping at the first line
whose capture is not a u32 integer, as the collect into a result does in
read_progress. -/
def collectParsedCaptures (pattern : String) :
    List (String × String) → Except ProgressScanError (List Nat)
  | [] => .ok []
  | (line, cap) :: rest =>
    match parseU32 cap with
    | none => .error (.nonIntegerMatch pattern line cap)
    | some v => (collectParsedCaptures pattern rest).map (fun vs => v :: vs)

/-- Maximum of a list of naturals, 0 for the empty list: the max().unwrap_or(0)
at the end of read_progress. -/
def listMax (vs : List Nat) : Nat := vs.foldr Nat.max 0

/-- Successfully parsed capture values of all matched lines. -/
def parsedValues (sc : ProgressScanner) (logContents : String) : List Nat :=
  (matchedLines sc logContents).filterMap (fun p => parseU32 p.2)

/-- Model of ProgressScanner::read_progress. -/
def readProgress (sc : ProgressScanner) (logContents : String) :
    Except ProgressScanError Nat :=
  (collectParsedCaptures sc.pattern (matchedLines sc logContents)).map listMax

/-! ### Job state machine (src/workflow/step/execution/mod.rs) -/

/-- Result of probing a path for existence, modelling std::fs::exists: either
the boolean answer or an I/O error code. -/
inductive ProbeResult where
  | ok (b : Bool)
  | ioError (e : Nat)
deriving DecidableEq, Repr

/-- Whether a probe outcome is an I/O error. -/
def ProbeResult.isIoErr : ProbeResult → Bool
  | .ioError _ => true
  | .ok _ => false

/-- Filesystem model: existence probe outcome for every path. -/
def FsModel := String → ProbeResult

/-- Runtime projection of a step, as StepInfo: name, flattened input paths,
flattened output paths, log path and optional progress scanning info
(indicator maximum and indicator regex pattern). -/
structure StepInfoM where
  name : String
  inputs : List String
  outputs : List String
  log : String
  progress : Option (Nat × String)
deriving DecidableEq, Repr

/-- Execution errors, as ExecutionError. I/O error payloads are opaque codes
and commands are their formatted debug strings. -/
inductive ExecutionErrorM where
  | spawnFailure (command : String) (e : Nat)
  | inputExistenceCheck (path : String) (e : Nat)
  | inputExistence (inputPaths : List String)
  | outputExistenceCheck (path : String) (e : Nat)
  | logFileParentDirectoryCreation (path : String) (e : Nat)
  | logFileCreation (path : String) (e : Nat)
  | logFileDuplication (path : String) (e : Nat)
  | waitFailure (command : String) (e : Nat)
  | killFailure (command : String) (e : Nat)
  | signalTermination (command : String)
  | nonZeroExitCode (command : String) (code : Int)
  | parentsFailed (parents : List String)
deriving DecidableEq, Repr

/-- Model of PendingJob::non_existing_associated_paths: the list of paths that
do not exist, in order, or the first probe I/O error together with its path.
The collect over an iterator of results short-circuits at the first error. -/
def nonExistingAssociatedPaths (fs : FsModel) :
    List String → Except (String × Nat) (List String)
  | [] => .ok []
  | p :: rest =>
    match fs p with
    | .ioError e => .error (p, e)
    | .ok true => nonExistingAssociatedPaths fs rest
    | .ok false => (nonExistingAssociatedPaths fs rest).map (fun ps => p :: ps)

/-- A pending job: the command to run and the step info. -/
structure PendingJobM where
  command : String
  step : StepInfoM
deriving DecidableEq, Repr

/-- Post-check I/O outcomes for PendingJob::execute: directory creation, log
file creation, log handle duplication and process spawning. -/
structure IoEnv where
  createLogDir : Except Nat Unit
  createLogFile : Except Nat Unit
  dupLogFile : Except Nat Unit
  spawnChild : Except Nat Unit

/-- Result state of PendingJob::execute, as ExecutedJob. -/
inductive ExecutedJobM where
  | running
  | finishedSuccessful
  | failed (e : ExecutionErrorM)
deriving DecidableEq, Repr

/-- Outcome of PendingJob::execute together with whether a child process spawn
was attempted. -/
structure ExecOutcome where
  job : ExecutedJobM
  spawnAttempted : Bool
deriving DecidableEq, Repr

/-- Model of PendingJob::execute: check input existence, then output
existence (skipping execution when all outputs already exist), then create the
log file and spawn the child process. -/
def pendingExecute (fs : FsModel) (io : IoEnv) (j : PendingJobM) : ExecOutcome :=
  match nonExistingAssociatedPaths fs j.step.inputs with
  | .error (p, e) => ⟨.failed (.inputExistenceCheck p e), false⟩
  | .ok missingInputs =>
    if missingInputs ≠ [] then
      ⟨.failed (.inputExistence missingInputs), false⟩
    else
      match nonExistingAssociatedPaths fs j.step.outputs with
      | .error (p, e) => ⟨.failed (.outputExistenceCheck p e), false⟩
      | .ok missingOutputs =>
        if missingOutputs = [] then
          ⟨.finishedSuccessful, false⟩
        else
          match io.createLogDir with
          | .error e => ⟨.failed (.logFileParentDirectoryCreation j.step.log e), false⟩
          | .ok _ =>
            match io.createLogFile with
            | .error e => ⟨.failed (.logFileCreation j.step.log e), false⟩
            | .ok _ =>
              match io.dupLogFile with
              | .error e => ⟨.failed (.logFileDuplication j.step.log e), false⟩
              | .ok _ =>
                match io.spawnChild with
                | .error e => ⟨.failed (.spawnFailure j.command e), true⟩
                | .ok _ => ⟨.running, true⟩

/-- Exit status of a waited child process: its exit code, or none when the
process was terminated by a signal. -/
structure ExitStatusM where
  code : Option Int
deriving DecidableEq, Repr

/-- A running job as far as RunningJob::finish is concerned: the command and
whether a progress handler is attached. -/
structure RunningJobM where
  command : String
  hasProgress : Bool
deriving DecidableEq, Repr

/-- Result state of RunningJob::finish, as FinishedJob. -/
inductive FinishedJobM where
  | successful
  | failed (e : ExecutionErrorM)
deriving DecidableEq, Repr

/-- Outcome of RunningJob::finish together with whether finish() was invoked
on the attached progress handler. -/
structure FinishOutcome where
  job : FinishedJobM
  progressFinishCalled : Bool
deriving DecidableEq, Repr

/-- Model of RunningJob::finish: blocking wait on the child, then map the exit
status; the progress handler is finalized after the status mapping, which the
early return on a wait error skips. -/
def runningFinish (waitResult : Except Nat ExitStatusM) (j : RunningJobM) : FinishOutcome :=
  match waitResult with
  | .error e => ⟨.failed (.waitFailure j.command e), false⟩
  | .ok status =>
    let finished : FinishedJobM :=
      match status.code with
      | some 0 => .successful
      | some code => .failed (.nonZeroExitCode j.command code)
      | none => .failed (.signalTermination j.command)
    ⟨finished, j.hasProgress⟩

/-! ### Job graph and graph executor (src/workflow/graph.rs)

The Job enum used by graph.rs (with the transient Executing and Finishing
placeholder states and the ShouldDirectlyFinish skip signal) belongs to a
revision of the execution module that is not part of this source snapshot;
its behaviour is modelled from the spec where the executor depends on it:
Pending.execute either signals a direct finish when all outputs pre-exist
(ShouldDirectlyFinish, the job is finished Successful without running) or
yields a Running job, and Running.finish maps exit code 0 to Successful,
a non-zero code to Failed with NonZeroExitCode and a signal termination to
Failed with SignalTermination. Per-job errors are captured in the Failed
state and are not thrown (spec, error handling design); infrastructure
failures of polling and progress updates are outside this model. -/

/-- Terminal result of a job. -/
inductive FinState where
  | successful
  | failed (e : ExecutionErrorM)
  | terminated
deriving DecidableEq, Repr

/-- Job lifecycle states as used by graph.rs: pending, running (with the
number of executor rounds the child still needs before its done poll turns
true, an environment abstraction of child runtime), the transient executing
and finishing placeholders parked during a state update, and finished. -/
inductive JobStateM where
  | pending
  | running (remaining : Nat)
  | executing
  | finishing
  | finished (f : FinState)
deriving DecidableEq, Repr

/-- Job::is_finished: exactly the terminal states. -/
def JobStateM.isFinished : JobStateM → Bool
  | .finished _ => true
  | _ => false

/-- A job currently in the Running state. -/
def JobStateM.isRunning : JobStateM → Bool
  | .running _ => true
  | _ => false

/-- A job that ended Failed with the ParentsFailed error. -/
def JobStateM.isParentsFailed : JobStateM → Bool
  | .finished (.failed (.parentsFailed _)) => true
  | _ => false

/-- A job that ended in the Failed state. -/
def JobStateM.isFailed : JobStateM → Bool
  | .finished (.failed _) => true
  | _ => false

/-- Per-job execution environment: the command's debug string, whether all of
its outputs pre-exist (so Pending.execute signals a direct finish), how many
executor rounds the spawned child runs before its done poll turns true, and
the exit status the final wait observes (none meaning signal termination). -/
structure JobEnvM where
  command : String
  skip : Bool
  runRounds : Nat
  exitCode : Option Int
deriving DecidableEq, Repr

/-- GraphExecutor state: the concurrency bound, the total job count, the
1-based index of the next job to start and the number of run slots currently
allocated. -/
structure ExecStateM where
  maxParallelJobs : Nat
  jobCount : Nat
  jobExecutionIndex : Nat
  runAllocatedJobCount : Nat
deriving DecidableEq, Repr

/-- GraphExecutor::new: the keep-going flag is accepted and discarded (the
parameter is named with an underscore in the source and never stored). -/
def graphExecutorNew (jobCount maxParallelJobs : Nat) (_keepGoing : Bool) : ExecStateM :=
  { maxParallelJobs := maxParallelJobs
    jobCount := jobCount
    jobExecutionIndex := 1
    runAllocatedJobCount := 0 }

/-- JobGraph::parents_are_finished: every incoming neighbour of node j is in a
terminal state. -/
def parentsAreFinished (edges : List (Nat × Nat)) (g : List JobStateM) (j : Nat) : Bool :=
  edges.all (fun pc => if pc.2 = j then (g.getD pc.1 .pending).isFinished else true)

/-- Job::update as invoked at the top of each executor visit. It only ticks
progress in the source; here it also carries the environment abstraction of
time passing for the child of a running job: one remaining round is consumed
per visit. -/
def jobUpdate : JobStateM → JobStateM
  | .running (k + 1) => .running k
  | s => s

/-- GraphExecutor::try_initialize_job_state_update: for a running job whose
done poll is true, park the Finishing placeholder and hand out the old state;
for a pending job whose parents are all terminal, atomically check the
concurrency budget and claim a run slot, parking the Executing placeholder;
otherwise no transition. The returned option is the replaced old state. -/
def tryInitializeJobStateUpdate (edges : List (Nat × Nat)) (ex : ExecStateM)
    (g : List JobStateM) (j : Nat) : ExecStateM × List JobStateM × Option JobStateM :=
  match g.getD j .pending with
  | .running k =>
    if k = 0 then (ex, g.set j .finishing, some (.running k))
    else (ex, g, none)
  | .pending =>
    if parentsAreFinished edges g j && decide (ex.runAllocatedJobCount < ex.maxParallelJobs) then
      ({ ex with runAllocatedJobCount := ex.runAllocatedJobCount + 1 },
        g.set j .executing, some .pending)
    else (ex, g, none)
  | _ => (ex, g, none)

/-- GraphExecutor::update_job_state on the extracted old state: a pending job
either finishes directly as Successful when its outputs pre-exist (releasing
its run slot) or starts running; a running job is finished by waiting on the
child and mapping the exit status, releasing its run slot. -/
def updateJobState (env : Nat → JobEnvM) (ex : ExecStateM) (g : List JobStateM)
    (j : Nat) (oldState : JobStateM) : ExecStateM × List JobStateM :=
  match oldState with
  | .pending =>
    if (env j).skip then
      ({ ex with runAllocatedJobCount := ex.runAllocatedJobCount - 1,
                 jobExecutionIndex := ex.jobExecutionIndex + 1 },
        g.set j (.finished .successful))
    else
      ({ ex with jobExecutionIndex := ex.jobExecutionIndex + 1 },
        g.set j (.running (env j).runRounds))
  | .running _ =>
    let fin : FinState :=
      match (env j).exitCode with
      | some 0 => .successful
      | some code => .failed (.nonZeroExitCode (env j).command code)
      | none => .failed (.signalTermination (env j).command)
    ({ ex with runAllocatedJobCount := ex.runAllocatedJobCount - 1 },
      g.set j (.finished fin))
  | _ => (ex, g)

/-- State after the update and initialization phase of a visit to job j, with
the placeholder still parked: the point between
try_initialize_job_state_update and update_job_state. -/
def midStep (edges : List (Nat × Nat)) (s : ExecStateM × List JobStateM) (j : Nat) :
    ExecStateM × List JobStateM :=
  let g0 := s.2.set j (jobUpdate (s.2.getD j .pending))
  let (ex1, g1, _) := tryInitializeJobStateUpdate edges s.1 g0 j
  (ex1, g1)

/-- One full executor visit to job j: update the job, try to initialize a
state update and, when an old state was extracted, complete the transition. -/
def processJob (env : Nat → JobEnvM) (edges : List (Nat × Nat))
    (s : ExecStateM × List JobStateM) (j : Nat) : ExecStateM × List JobStateM :=
  let g0 := s.2.set j (jobUpdate (s.2.getD j .pending))
  match tryInitializeJobStateUpdate edges s.1 g0 j with
  | (ex1, g1, none) => (ex1, g1)
  | (ex1, g1, some old) => updateJobState env ex1 g1 j old

/-- One round of GraphExecutor::execute: visit every node index in order. -/
def executeRound (env : Nat → JobEnvM) (edges : List (Nat × Nat))
    (s : ExecStateM × List JobStateM) : ExecStateM × List JobStateM :=
  (List.range s.2.length).foldl (processJob env edges) s

/-- The loop of GraphExecutor::execute, with explicit fuel standing for time:
rounds are repeated until every job is terminal. -/
def executeLoop (env : Nat → JobEnvM) (edges : List (Nat × Nat)) :
    Nat → ExecStateM × List JobStateM → ExecStateM × List JobStateM
  | 0, s => s
  | fuel + 1, s =>
    if s.2.all JobStateM.isFinished then s
    else executeLoop env edges fuel (executeRound env edges s)

/-- Return value of GraphExecutor::execute in the modelled environment (no
infrastructure failures): Ok with the final graph once every job is terminal,
none when the loop is still running after the given fuel. -/
def executeResult (env : Nat → JobEnvM) (edges : List (Nat × Nat)) (fuel : Nat)
    (s : ExecStateM × List JobStateM) : Option (List JobStateM) :=
  let f := executeLoop env edges fuel s
  if f.2.all JobStateM.isFinished then some f.2 else none

/-- Number of jobs currently in the Running state. -/
def countRunning (g : List JobStateM) : Nat :=
  g.countP JobStateM.isRunning

/-- States of the executor reachable from the initial all-pending graph,
including the intermediate states in which a transition placeholder is still
parked. The job index of each visit is unconstrained, which covers every
schedule, including the node-index order of the source loop. -/
inductive Reach (env : Nat → JobEnvM) (edges : List (Nat × Nat)) (n maxPar : Nat) :
    ExecStateM × List JobStateM → Prop where
  | init (keepGoing : Bool) :
      Reach env edges n maxPar
        (graphExecutorNew n maxPar keepGoing, List.replicate n .pending)
  | mid (s : ExecStateM × List JobStateM) (j : Nat) (hj : j < s.2.length) :
      Reach env edges n maxPar s → Reach env edges n maxPar (midStep edges s j)
  | step (s : ExecStateM × List JobStateM) (j : Nat) (hj : j < s.2.length) :
      Reach env edges n maxPar s → Reach env edges n maxPar (processJob env edges s j)

/-! ### Job graph construction (JobGraph::new in src/workflow/graph.rs) -/

mutual
/-- A parsed step: name, input slots, output slots (slot name to output
paths), log path and optional progress scanning info. -/
inductive StepM : Type where
  | mk (name : String) (inputs : List SlotM) (outputs : List (String × List String))
      (log : String) (progress : Option (Nat × String)) : StepM

/-- One input slot of a step: the slot name and its input list. -/
inductive SlotM : Type where
  | mk (slotName : String) (items : List InputM) : SlotM

/-- One input: the path and the parent step producing it. -/
inductive InputM : Type where
  | mk (path : String) (parent : StepM) : InputM
end

/-- Name of a step. -/
def StepM.name : StepM → String
  | .mk n _ _ _ _ => n

/-- Input slots of a step. -/
def StepM.inputs : StepM → List SlotM
  | .mk _ ins _ _ _ => ins

/-- Path of an input. -/
def InputM.path : InputM → String
  | .mk p _ => p

/-- Parent step of an input. -/
def InputM.parent : InputM → StepM
  | .mk _ par => par

/-- Items of an input slot. -/
def SlotM.items : SlotM → List InputM
  | .mk _ its => its

/-- Flattened input paths of a step, in slot iteration order. -/
def flattenInputPaths (slots : List SlotM) : List String :=
  slots.flatMap (fun s => s.items.map InputM.path)

/-- Flattened output paths of a step, in slot iteration order. -/
def flattenOutputPaths (outputs : List (String × List String)) : List String :=
  outputs.flatMap (fun o => o.2)

/-- The job graph under construction: nodes are jobs in the Pending state
carrying their StepInfo (node index is the position), edges are parent to
child dependencies. -/
structure GraphB where
  nodes : List StepInfoM
  edges : List (Nat × Nat)
deriving DecidableEq, Repr

mutual
/-- JobGraph::new's add_jobs_from_step: build the StepInfo, add a node for
this step occurrence, then recurse into every input's parent step and add an
edge parent to child. Returns the graph and the node id of this step. -/
def addJobsFromStep (g : GraphB) : StepM → GraphB × Nat
  | .mk name inputs outputs log progress =>
    let info : StepInfoM :=
      { name := name
        inputs := flattenInputPaths inputs
        outputs := flattenOutputPaths outputs
        log := log
        progress := progress }
    let id := g.nodes.length
    let g1 : GraphB := { g with nodes := g.nodes ++ [info] }
    (addParentsOfSlots g1 id inputs, id)

/-- Recurse over the input slots of a step. -/
def addParentsOfSlots (g : GraphB) (childId : Nat) : List SlotM → GraphB
  | [] => g
  | s :: rest => addParentsOfSlots (addParentsOfSlot g childId s) childId rest

/-- Recurse over one input slot. -/
def addParentsOfSlot (g : GraphB) (childId : Nat) : SlotM → GraphB
  | .mk _ items => addParentItems g childId items

/-- Recurse over the inputs of one slot, adding the parent job of each input
and the dependency edge. -/
def addParentItems (g : GraphB) (childId : Nat) : List InputM → GraphB
  | [] => g
  | .mk _ parent :: rest =>
    let (g1, parentId) := addJobsFromStep g parent
    let g2 : GraphB := { g1 with edges := g1.edges ++ [(parentId, childId)] }
    addParentItems g2 childId rest
end

/-- One target: the target path and its parent step. -/
structure TargetM where
  path : String
  parentStep : StepM

/-- A parsed workflow specification: target group name to targets. -/
structure WorkflowSpecM where
  targets : List (String × List TargetM)

/-- JobGraph::new: walk every target of every target group and add the jobs
of its parent step. -/
def jobGraphNew (spec : WorkflowSpecM) : GraphB :=
  spec.targets.foldl
    (fun g tg => tg.2.foldl (fun g t => (addJobsFromStep g t.parentStep).1) g)
    { nodes := [], edges := [] }

/-! ### Specification parsing (WorkflowSpecification::parse in
src/workflow/specification/mod.rs) -/

/-- Filesystem events of a parse call on temporary inspection files,
identified by creation order. A delete event is emitted when a temporary file
guard is dropped without having been kept, which is how NamedTempFile removes
files. Write events record successful writes with their content. -/
inductive FileEvent where
  | createTemp (id : Nat)
  | keepTemp (id : Nat)
  | writeFile (id : Nat) (content : String)
  | deleteTemp (id : Nat)
deriving DecidableEq, Repr

/-- Environment of a parse call: outcomes of the temporary file operations,
the result of the syntax check (the pretty-printed document on success) and
the outcome of the typed decoding. -/
structure ParseIo where
  createOk : Bool
  keepOk : Bool
  writeRawOk : Bool
  pretty : Option String
  writePrettyOk : Bool
  typedDecodeOk : Bool
deriving DecidableEq, Repr

/-- WithSourceIndication::with_source_indication on a decoding error: a second
temporary inspection file is created and kept for the diagnostic (its
operations are assumed to succeed here). -/
def withSourceIndicationEvents (tempId : Nat) : List FileEvent :=
  [.createTemp tempId, .keepTemp tempId]

/-- Model of WorkflowSpecification::parse: create a temporary inspection
file, persist it, write the raw input to it, run the pure syntax check,
rewrite the file with the pretty-printed JSON, then run the typed decoding.
Returns whether parsing succeeded and the trace of file events. -/
def wsParse (input : String) (io : ParseIo) : Bool × List FileEvent :=
  if !io.createOk then (false, [])
  else if !io.keepOk then (false, [.createTemp 0, .deleteTemp 0])
  else if !io.writeRawOk then (false, [.createTemp 0, .keepTemp 0])
  else
    let evs : List FileEvent := [.createTemp 0, .keepTemp 0, .writeFile 0 input]
    match io.pretty with
    | none => (false, evs ++ withSourceIndicationEvents 1)
    | some prettyJson =>
      if !io.writePrettyOk then (false, evs)
      else
        let evs := evs ++ [.writeFile 0 prettyJson]
        if io.typedDecodeOk then (true, evs)
        else (false, evs ++ withSourceIndicationEvents 1)

/-! ### Concrete instances used by witnesses and counterexamples -/

/-- Paths of the given list that the filesystem reports as not existing. -/
def missingPaths (fs : FsModel) (ps : List String) : List String :=
  ps.filter (fun p => fs p = .ok false)

/-- A scanner whose pattern matches the lines "done 3" and "done 5" with
captures "3" and "5", and the line "done x" with capture "x". -/
def scC9 : ProgressScanner :=
  { pattern := "done (\\S+)"
    capture := fun l =>
      if l = "done 3" then some "3"
      else if l = "done 5" then some "5"
      else if l = "done x" then some "x"
      else none }

/-- A filesystem on which the paths "in" and "out" exist and everything else
does not. -/
def fsC6 : FsModel :=
  fun p => if p = "in" then .ok true else if p = "out" then .ok true else .ok false

/-- A filesystem on which "in" exists, "gone" does not, and probing "bad"
fails with I/O error 5. -/
def fsC7 : FsModel :=
  fun p =>
    if p = "in" then .ok true
    else if p = "bad" then .ioError 5
    else .ok false

/-- An I/O environment for execute in which every operation succeeds. -/
def ioAllOk : IoEnv :=
  { createLogDir := .ok ()
    createLogFile := .ok ()
    dupLogFile := .ok ()
    spawnChild := .ok () }

/-- A pending job whose input "in" and output "out" both exist on fsC6. -/
def jobC6 : PendingJobM :=
  { command := "cmd"
    step := { name := "a", inputs := ["in"], outputs := ["out"], log := "log/a", progress := none } }

/-- A pending job with inputs "in" and "gone" (the latter missing on fsC7). -/
def jobC7 : PendingJobM :=
  { command := "cmd"
    step := { name := "b", inputs := ["in", "gone"], outputs := ["o"], log := "log/b", progress := none } }

/-- A pending job with inputs "in" and "bad" (probing the latter fails). -/
def jobC7e : PendingJobM :=
  { command := "cmd"
    step := { name := "c", inputs := ["in", "bad"], outputs := ["o"], log := "log/c", progress := none } }

/-- A two-job environment: job 0 runs for one round and exits with code 1,
job 1 runs for one round and exits with code 0. -/
def envC1 : Nat → JobEnvM :=
  fun j =>
    if j = 0 then { command := "p", skip := false, runRounds := 0, exitCode := some 1 }
    else { command := "c", skip := false, runRounds := 0, exitCode := some 0 }

/-- One dependency edge: job 0 is the parent of job 1. -/
def edgesC1 : List (Nat × Nat) := [(0, 1)]

/-- Initial executor state for two jobs with budget 2 (keep-going false). -/
def initC1 : ExecStateM × List JobStateM :=
  (graphExecutorNew 2 2 false, List.replicate 2 .pending)

/-- A one-job environment whose job exits with code 1 (it fails). -/
def envC5 : Nat → JobEnvM :=
  fun _ => { command := "f", skip := false, runRounds := 0, exitCode := some 1 }

/-- Initial executor state for one job with budget 1 (keep-going false). -/
def initC5 : ExecStateM × List JobStateM :=
  (graphExecutorNew 1 1 false, List.replicate 1 .pending)

/-- A step named "P" with no inputs and one output. -/
def stepP : StepM :=
  .mk "P" [] [("out", ["p.out"])] "log/P" none

/-- A step named "S" that references the step "P" from two input slots. -/
def stepS : StepM :=
  .mk "S"
    [.mk "left" [.mk "p.out" stepP], .mk "right" [.mk "p.out" stepP]]
    [("out", ["s.out"])] "log/S" none

/-- A specification with one target whose parent step is "S": the step "P"
is referenced as a parent from two different downstream input slots. -/
def dupSpecC4 : WorkflowSpecM :=
  { targets := [("t", [{ path := "s.out", parentStep := stepS }])] }

/-- A parse environment in which every file operation succeeds, the syntax
check yields the pretty document "pretty" and the typed decoding succeeds. -/
def ioC10 : ParseIo :=
  { createOk := true
    keepOk := true
    writeRawOk := true
    pretty := some "pretty"
    writePrettyOk := true
    typedDecodeOk := true }

/-! ### Invariant predicates about executor states -/

/-- Concurrency budget invariant: the number of Running jobs never exceeds
the allocated run slot count, which never exceeds the budget M. -/
def Inv3 (M : Nat) (s : ExecStateM × List JobStateM) : Prop :=
  countRunning s.2 ≤ s.1.runAllocatedJobCount ∧
  s.1.runAllocatedJobCount ≤ s.1.maxParallelJobs ∧
  s.1.maxParallelJobs = M

/-- Dependency gating invariant: whenever the child of an edge has left the
Pending state, its parent is in a terminal state. -/
def InvDep (edges : List (Nat × Nat)) (s : ExecStateM × List JobStateM) : Prop :=
  ∀ pc ∈ edges, s.2.getD pc.2 .pending ≠ .pending →
    (s.2.getD pc.1 .pending).isFinished = true

/-- No job is ever in the Failed state with the ParentsFailed error. -/
def NoPF (s : ExecStateM × List JobStateM) : Prop :=
  ∀ j, (s.2.getD j .pending).isParentsFailed = false

/-! ### Theorems -/

/-! #### List helper lemmas -/

theorem getD_set_self {α : Type} (l : List α) (j : Nat) (a d : α) (h : j < l.length) :
    (l.set j a).getD j d = a := by
  induction l generalizing j with
  | nil => simp at h
  | cons hd tl ih =>
    cases j with
    | zero => rfl
    | succ j => simpa using ih j (by simpa using h)

theorem getD_set_ne {α : Type} (l : List α) (i j : Nat) (a d : α) (h : i ≠ j) :
    (l.set j a).getD i d = l.getD i d := by
  induction l generalizing i j with
  | nil => rfl
  | cons hd tl ih =>
    cases j with
    | zero =>
      cases i with
      | zero => exact absurd rfl h
      | succ i => rfl
    | succ j =>
      cases i with
      | zero => rfl
      | succ i => simpa using ih i j (fun hc => h (by omega))

theorem countP_set_add {α : Type} (p : α → Bool) (l : List α) (j : Nat) (a d : α)
    (h : j < l.length) :
    (l.set j a).countP p + (if p (l.getD j d) then 1 else 0)
      = l.countP p + (if p a then 1 else 0) := by
  induction l generalizing j with
  | nil => simp at h
  | cons hd tl ih =>
    cases j with
    | zero =>
      simp only [List.set, List.getD_cons_zero, List.countP_cons]
      omega
    | succ j =>
      have := ih j (by simpa using h)
      simp only [List.set, List.getD_cons_succ, List.countP_cons] at *
      omega

/-! #### Progress scanner lemmas and C9 -/

theorem collectParsedCaptures_ok (pattern : String) (l : List (String × String))
    (h : ∀ p ∈ l, (parseU32 p.2).isSome) :
    collectParsedCaptures pattern l = .ok (l.filterMap (fun p => parseU32 p.2)) := by
  induction l with
  | nil => rfl
  | cons hd tl ih =>
    obtain ⟨line, cap⟩ := hd
    have hhd := h (line, cap) (List.mem_cons_self _ _)
    cases hcap : parseU32 cap with
    | none => rw [hcap] at hhd; simp at hhd
    | some v =>
      have htl := ih (fun p hp => h p (List.mem_cons_of_mem _ hp))
      simp [collectParsedCaptures, hcap, htl, List.filterMap_cons, Except.map]

theorem collectParsedCaptures_error (pattern : String) (pre post : List (String × String))
    (line cap : String) (hpre : ∀ p ∈ pre, (parseU32 p.2).isSome)
    (hcap : parseU32 cap = none) :
    collectParsedCaptures pattern (pre ++ (line, cap) :: post)
      = .error (.nonIntegerMatch pattern line cap) := by
  induction pre with
  | nil => simp [collectParsedCaptures, hcap]
  | cons hd tl ih =>
    obtain ⟨l0, c0⟩ := hd
    have hhd := hpre (l0, c0) (List.mem_cons_self _ _)
    cases h0 : parseU32 c0 with
    | none => rw [h0] at hhd; simp at hhd
    | some v =>
      have htl := ih (fun p hp => hpre p (List.mem_cons_of_mem _ hp))
      simp [collectParsedCaptures, h0, htl, Except.map]

theorem listMax_ge (vs : List Nat) : ∀ v ∈ vs, v ≤ listMax vs := by
  induction vs with
  | nil => simp
  | cons hd tl ih =>
    intro v hv
    rcases List.mem_cons.mp hv with h | h
    · rw [h]
      exact Nat.le_max_left hd (listMax tl)
    · exact le_trans (ih v h) (Nat.le_max_right hd (listMax tl))

/-- C9: read_progress returns 0 when no line matches; when every matched
line's capture parses as a u32 it returns the maximum of the parsed values;
and when some matched line's capture fails to parse it returns
NonIntegerMatch carrying the pattern, the offending line and the captured
text (the first such line, as the collect over parse results
short-circuits). -/
theorem C9_read_progress (sc : ProgressScanner) (log : String) :
    (matchedLines sc log = [] → readProgress sc log = .ok 0) ∧
    ((∀ p ∈ matchedLines sc log, (parseU32 p.2).isSome) →
      readProgress sc log = .ok (listMax (parsedValues sc log)) ∧
      ∀ v ∈ parsedValues sc log, v ≤ listMax (parsedValues sc log)) ∧
    (∀ pre line cap post, matchedLines sc log = pre ++ (line, cap) :: post →
      (∀ p ∈ pre, (parseU32 p.2).isSome) → parseU32 cap = none →
      readProgress sc log = .error (.nonIntegerMatch sc.pattern line cap)) := by
  refine ⟨fun hm => ?_, fun hall => ?_, fun pre line cap post hsplit hpre hcap => ?_⟩
  · unfold readProgress
    rw [hm]
    rfl
  · constructor
    · unfold readProgress parsedValues
      rw [collectParsedCaptures_ok sc.pattern _ hall]
      rfl
    · exact listMax_ge _
  · unfold readProgress
    rw [hsplit, collectParsedCaptures_error sc.pattern pre post line cap hpre hcap]
    rfl

/-- Witness for C9: on the log "done 3\nother\ndone 5" the scanner reports
the maximum 5, and on a log whose matched capture is not an integer it
reports NonIntegerMatch. -/
theorem C9_read_progress_witness :
    readProgress scC9 "done 3\nother\ndone 5" = .ok 5 ∧
    readProgress scC9 "done x" = .error (.nonIntegerMatch "done (\\S+)" "done x" "x") := by
  constructor
  · have h := ((C9_read_progress scC9 "done 3\nother\ndone 5").2.1 (by decide)).1
    rw [h]
    exact congrArg Except.ok (by decide)
  · exact (C9_read_progress scC9 "done x").2.2 [] "done x" "x" [] (by decide) (by decide)
      (by decide)

/-! #### Pending job execution lemmas, C6 and C7 -/

theorem nonExisting_of_all_exist (fs : FsModel) (ps : List String)
    (h : ∀ p ∈ ps, fs p = .ok true) :
    nonExistingAssociatedPaths fs ps = .ok [] := by
  induction ps with
  | nil => rfl
  | cons hd tl ih =>
    have hhd := h hd (List.mem_cons_self _ _)
    have htl := ih (fun p hp => h p (List.mem_cons_of_mem _ hp))
    simp [nonExistingAssociatedPaths, hhd, htl]

theorem nonExisting_of_no_error (fs : FsModel) (ps : List String)
    (h : ∀ p ∈ ps, (fs p).isIoErr = false) :
    nonExistingAssociatedPaths fs ps = .ok (missingPaths fs ps) := by
  induction ps with
  | nil => rfl
  | cons hd tl ih =>
    have htl := ih (fun p hp => h p (List.mem_cons_of_mem _ hp))
    cases hhd : fs hd with
    | ioError e =>
      have := h hd (List.mem_cons_self _ _)
      rw [hhd] at this
      simp [ProbeResult.isIoErr] at this
    | ok b =>
      cases b with
      | true => simp [nonExistingAssociatedPaths, hhd, htl, missingPaths]
      | false => simp [nonExistingAssociatedPaths, hhd, htl, missingPaths, Except.map]

theorem nonExisting_first_error (fs : FsModel) (pre post : List String) (p : String) (e : Nat)
    (hpre : ∀ q ∈ pre, (fs q).isIoErr = false) (hp : fs p = .ioError e) :
    nonExistingAssociatedPaths fs (pre ++ p :: post) = .error (p, e) := by
  induction pre with
  | nil => simp [nonExistingAssociatedPaths, hp]
  | cons hd tl ih =>
    have htl := ih (fun q hq => hpre q (List.mem_cons_of_mem _ hq))
    cases hhd : fs hd with
    | ioError e0 =>
      have := hpre hd (List.mem_cons_self _ _)
      rw [hhd] at this
      simp [ProbeResult.isIoErr] at this
    | ok b =>
      cases b with
      | true => simpa [nonExistingAssociatedPaths, hhd] using htl
      | false => simp [nonExistingAssociatedPaths, hhd, htl, Except.map]

/-- C6: a pending job whose declared inputs all exist and whose declared
outputs all already exist finishes Successful directly, with no spawn
attempted. -/
theorem C6_skip_when_outputs_exist (fs : FsModel) (io : IoEnv) (j : PendingJobM)
    (hin : ∀ p ∈ j.step.inputs, fs p = .ok true)
    (hout : ∀ p ∈ j.step.outputs, fs p = .ok true) :
    pendingExecute fs io j = ⟨.finishedSuccessful, false⟩ := by
  unfold pendingExecute
  rw [nonExisting_of_all_exist fs _ hin, nonExisting_of_all_exist fs _ hout]
  simp

/-- Witness for C6 at a concrete job whose input and output both exist. -/
theorem C6_skip_when_outputs_exist_witness :
    pendingExecute fsC6 ioAllOk jobC6 = ⟨.finishedSuccessful, false⟩ :=
  C6_skip_when_outputs_exist fsC6 ioAllOk jobC6 (by decide) (by decide)

/-- C7: a pending job with a missing declared input fails with
InputExistence listing exactly the missing input paths in declaration order
and no spawn is attempted; when instead probing some input path fails with
an I/O error (and no earlier input probe failed), the job fails with
InputExistenceCheck for that path, again without spawning. -/
theorem C7_missing_input (fs : FsModel) (io : IoEnv) (j : PendingJobM) :
    ((∀ p ∈ j.step.inputs, (fs p).isIoErr = false) →
      missingPaths fs j.step.inputs ≠ [] →
      pendingExecute fs io j = ⟨.failed (.inputExistence (missingPaths fs j.step.inputs)), false⟩) ∧
    (∀ pre p post e, j.step.inputs = pre ++ p :: post →
      (∀ q ∈ pre, (fs q).isIoErr = false) → fs p = .ioError e →
      pendingExecute fs io j = ⟨.failed (.inputExistenceCheck p e), false⟩) := by
  constructor
  · intro hnoerr hmiss
    unfold pendingExecute
    rw [nonExisting_of_no_error fs _ hnoerr]
    simp [hmiss]
  · intro pre p post e hsplit hpre hp
    unfold pendingExecute
    rw [hsplit, nonExisting_first_error fs pre post p e hpre hp]

/-- Witness for C7 at concrete jobs: one with the missing input "gone", one
whose input probe of "bad" fails with I/O error 5. -/
theorem C7_missing_input_witness :
    pendingExecute fsC7 ioAllOk jobC7 = ⟨.failed (.inputExistence ["gone"]), false⟩ ∧
    pendingExecute fsC7 ioAllOk jobC7e = ⟨.failed (.inputExistenceCheck "bad" 5), false⟩ := by
  constructor
  · have h := (C7_missing_input fsC7 ioAllOk jobC7).1 (by decide) (by decide)
    rw [h]
    decide
  · exact (C7_missing_input fsC7 ioAllOk jobC7e).2 ["in"] "bad" [] 5 (by decide) (by decide)
      (by decide)

/-! #### Running job finish, C8 -/

/-- Counterexample to C8: when the blocking wait itself fails, finish
returns a Failed job with the Wait error and the progress indicator is not
finalized, contradicting the claim that the indicator is finalized in every
case. -/
theorem C8_counterexample :
    (runningFinish (.error 7) { command := "cmd", hasProgress := true }).progressFinishCalled
        = false ∧
    (runningFinish (.error 7) { command := "cmd", hasProgress := true }).job
        = .failed (.waitFailure "cmd" 7) := by
  decide

/-- C8 (amended): finish maps a successful wait as stated by the claim (exit
code 0 to Successful, non-zero code to Failed with NonZeroExitCode, signal
termination to Failed with SignalTermination) and finalizes the attached
progress indicator in each of those cases, including the failure cases; but
when the blocking wait itself fails, finish returns Failed with a Wait error
without finalizing the indicator. -/
theorem C8_finish_mapping (j : RunningJobM) :
    (∀ st : ExitStatusM, runningFinish (.ok st) j =
      ⟨(match st.code with
        | some 0 => .successful
        | some code => .failed (.nonZeroExitCode j.command code)
        | none => .failed (.signalTermination j.command)), j.hasProgress⟩) ∧
    (∀ e, runningFinish (.error e) j = ⟨.failed (.waitFailure j.command e), false⟩) := by
  constructor
  · intro st
    rfl
  · intro e
    rfl

/-! #### Graph executor lemmas -/

theorem isRunning_jobUpdate (x : JobStateM) : (jobUpdate x).isRunning = x.isRunning := by
  cases x with
  | running k => cases k <;> rfl
  | pending => rfl
  | executing => rfl
  | finishing => rfl
  | finished f => rfl

theorem isFinished_jobUpdate (x : JobStateM) : (jobUpdate x).isFinished = x.isFinished := by
  cases x with
  | running k => cases k <;> rfl
  | pending => rfl
  | executing => rfl
  | finishing => rfl
  | finished f => rfl

theorem isParentsFailed_jobUpdate (x : JobStateM) :
    (jobUpdate x).isParentsFailed = x.isParentsFailed := by
  cases x with
  | running k => cases k <;> rfl
  | pending => rfl
  | executing => rfl
  | finishing => rfl
  | finished f => rfl

theorem jobUpdate_eq_pending (x : JobStateM) :
    jobUpdate x = .pending ↔ x = .pending := by
  cases x with
  | running k => cases k <;> simp [jobUpdate]
  | pending => simp [jobUpdate]
  | executing => simp [jobUpdate]
  | finishing => simp [jobUpdate]
  | finished f => simp [jobUpdate]

theorem countRunning_tick (g : List JobStateM) (j : Nat) (hj : j < g.length) :
    countRunning (g.set j (jobUpdate (g.getD j .pending))) = countRunning g := by
  have hset := countP_set_add JobStateM.isRunning g j (jobUpdate (g.getD j .pending)) .pending hj
  rw [isRunning_jobUpdate] at hset
  unfold countRunning
  omega

theorem getD_replicate_pending (n i : Nat) :
    (List.replicate n JobStateM.pending).getD i .pending = .pending := by
  induction n generalizing i with
  | zero => rfl
  | succ n ih =>
    cases i with
    | zero => rfl
    | succ i =>
      simp only [List.replicate, List.getD_cons_succ]
      exact ih i

theorem countRunning_replicate_pending (n : Nat) :
    countRunning (List.replicate n JobStateM.pending) = 0 := by
  induction n with
  | zero => rfl
  | succ n ih =>
    unfold countRunning at ih ⊢
    simp [List.replicate, List.countP_cons, JobStateM.isRunning, ih]

theorem parentsAreFinished_elim (edges : List (Nat × Nat)) (g : List JobStateM) (j : Nat)
    (h : parentsAreFinished edges g j = true) (p c : Nat) (hm : (p, c) ∈ edges) (hc : c = j) :
    (g.getD p .pending).isFinished = true := by
  have := List.all_eq_true.mp h (p, c) hm
  simpa [hc] using this

/-- Full case analysis of try_initialize_job_state_update: a running job whose
done poll is true moves to the Finishing placeholder, a pending job whose
parents are all terminal and for which a run slot is free moves to the
Executing placeholder with the slot claimed, and in every other situation
nothing changes. -/
theorem tryInit_spec (edges : List (Nat × Nat)) (ex : ExecStateM) (g : List JobStateM) (j : Nat) :
    (g.getD j .pending = .running 0 ∧
      tryInitializeJobStateUpdate edges ex g j = (ex, g.set j .finishing, some (.running 0))) ∨
    (g.getD j .pending = .pending ∧
      parentsAreFinished edges g j = true ∧
      ex.runAllocatedJobCount < ex.maxParallelJobs ∧
      tryInitializeJobStateUpdate edges ex g j =
        ({ ex with runAllocatedJobCount := ex.runAllocatedJobCount + 1 }, g.set j .executing,
          some .pending)) ∨
    tryInitializeJobStateUpdate edges ex g j = (ex, g, none) := by
  unfold tryInitializeJobStateUpdate
  cases h : g.getD j .pending with
  | running k =>
    cases k with
    | zero => exact Or.inl ⟨rfl, by simp⟩
    | succ k => exact Or.inr (Or.inr (by simp))
  | pending =>
    by_cases hpar : parentsAreFinished edges g j = true
    · by_cases hcap : ex.runAllocatedJobCount < ex.maxParallelJobs
      · exact Or.inr (Or.inl ⟨rfl, hpar, hcap, by simp [hpar, hcap]⟩)
      · exact Or.inr (Or.inr (by simp [hpar, hcap]))
    · exact Or.inr (Or.inr (by simp [Bool.eq_false_iff.mpr hpar]))
  | executing => exact Or.inr (Or.inr (by simp))
  | finishing => exact Or.inr (Or.inr (by simp))
  | finished f => exact Or.inr (Or.inr (by simp))

theorem countRunning_set (g : List JobStateM) (j : Nat) (a : JobStateM) (hj : j < g.length) :
    countRunning (g.set j a) + (if (g.getD j .pending).isRunning then 1 else 0)
      = countRunning g + (if a.isRunning then 1 else 0) :=
  countP_set_add JobStateM.isRunning g j a .pending hj

theorem cr_set_run_to_not (g : List JobStateM) (j : Nat) (a : JobStateM) (hj : j < g.length)
    (h1 : (g.getD j .pending).isRunning = true) (h2 : a.isRunning = false) :
    countRunning (g.set j a) + 1 = countRunning g := by
  have h := countRunning_set g j a hj
  rw [h1, h2] at h
  simpa using h

theorem cr_set_not_to_run (g : List JobStateM) (j : Nat) (a : JobStateM) (hj : j < g.length)
    (h1 : (g.getD j .pending).isRunning = false) (h2 : a.isRunning = true) :
    countRunning (g.set j a) = countRunning g + 1 := by
  have h := countRunning_set g j a hj
  rw [h1, h2] at h
  simpa using h

theorem cr_set_same (g : List JobStateM) (j : Nat) (a : JobStateM) (hj : j < g.length)
    (h1 : (g.getD j .pending).isRunning = a.isRunning) :
    countRunning (g.set j a) = countRunning g := by
  have h := countRunning_set g j a hj
  rw [h1] at h
  omega

theorem inv3_intro (M maxPar jc ji count : Nat) (g : List JobStateM)
    (h1 : countRunning g ≤ count) (h2 : count ≤ maxPar) (h3 : maxPar = M) :
    Inv3 M (⟨maxPar, jc, ji, count⟩, g) :=
  ⟨h1, h2, h3⟩

theorem inv3_midStep (M : Nat) (edges : List (Nat × Nat)) (ex : ExecStateM)
    (g : List JobStateM) (j : Nat) (hj : j < g.length) (h : Inv3 M (ex, g)) :
    Inv3 M (midStep edges (ex, g) j) := by
  obtain ⟨h1, h2, h3⟩ := h
  replace h1 : countRunning g ≤ ex.runAllocatedJobCount := h1
  replace h2 : ex.runAllocatedJobCount ≤ ex.maxParallelJobs := h2
  replace h3 : ex.maxParallelJobs = M := h3
  have hg0len : (g.set j (jobUpdate (g.getD j .pending))).length = g.length := by
    rw [List.length_set]
  have hcr0 := countRunning_tick g j hj
  simp only [midStep]
  rcases tryInit_spec edges ex (g.set j (jobUpdate (g.getD j .pending))) j with
    ⟨hrun, heq⟩ | ⟨hpend, hpar, hcap, heq⟩ | heq
  · rw [heq]
    have hA := cr_set_run_to_not (g.set j (jobUpdate (g.getD j .pending))) j .finishing
      (by rw [hg0len]; exact hj) (by rw [hrun]; rfl) rfl
    exact inv3_intro M ex.maxParallelJobs ex.jobCount ex.jobExecutionIndex
      ex.runAllocatedJobCount ((g.set j (jobUpdate (g.getD j .pending))).set j .finishing)
      (by omega) h2 h3
  · rw [heq]
    have hA := cr_set_same (g.set j (jobUpdate (g.getD j .pending))) j .executing
      (by rw [hg0len]; exact hj) (by rw [hpend]; rfl)
    exact inv3_intro M ex.maxParallelJobs ex.jobCount ex.jobExecutionIndex
      (ex.runAllocatedJobCount + 1) ((g.set j (jobUpdate (g.getD j .pending))).set j .executing)
      (by omega) (by omega) h3
  · rw [heq]
    exact inv3_intro M ex.maxParallelJobs ex.jobCount ex.jobExecutionIndex
      ex.runAllocatedJobCount (g.set j (jobUpdate (g.getD j .pending))) (by omega) h2 h3

theorem inv3_processJob (M : Nat) (env : Nat → JobEnvM) (edges : List (Nat × Nat))
    (ex : ExecStateM) (g : List JobStateM) (j : Nat) (hj : j < g.length)
    (h : Inv3 M (ex, g)) : Inv3 M (processJob env edges (ex, g) j) := by
  obtain ⟨h1, h2, h3⟩ := h
  replace h1 : countRunning g ≤ ex.runAllocatedJobCount := h1
  replace h2 : ex.runAllocatedJobCount ≤ ex.maxParallelJobs := h2
  replace h3 : ex.maxParallelJobs = M := h3
  have hg0len : (g.set j (jobUpdate (g.getD j .pending))).length = g.length := by
    rw [List.length_set]
  have hg1len : ∀ a : JobStateM,
      ((g.set j (jobUpdate (g.getD j .pending))).set j a).length = g.length := by
    intro a
    rw [List.length_set, List.length_set]
  have hcr0 := countRunning_tick g j hj
  simp only [processJob]
  rcases tryInit_spec edges ex (g.set j (jobUpdate (g.getD j .pending))) j with
    ⟨hrun, heq⟩ | ⟨hpend, hpar, hcap, heq⟩ | heq
  · rw [heq]
    simp only [updateJobState]
    have hA := cr_set_run_to_not (g.set j (jobUpdate (g.getD j .pending))) j .finishing
      (by rw [hg0len]; exact hj) (by rw [hrun]; rfl) rfl
    have hfin : ((g.set j (jobUpdate (g.getD j .pending))).set j .finishing).getD j .pending
        = .finishing := getD_set_self _ _ _ _ (by rw [hg0len]; exact hj)
    have hB := cr_set_same ((g.set j (jobUpdate (g.getD j .pending))).set j .finishing) j
      (.finished (match (env j).exitCode with
        | some 0 => .successful
        | some code => .failed (.nonZeroExitCode (env j).command code)
        | none => .failed (.signalTermination (env j).command)))
      (by rw [hg1len]; exact hj) (by rw [hfin]; rfl)
    exact inv3_intro M ex.maxParallelJobs ex.jobCount ex.jobExecutionIndex
      (ex.runAllocatedJobCount - 1)
      (((g.set j (jobUpdate (g.getD j .pending))).set j .finishing).set j
        (.finished (match (env j).exitCode with
          | some 0 => .successful
          | some code => .failed (.nonZeroExitCode (env j).command code)
          | none => .failed (.signalTermination (env j).command))))
      (by omega) (by omega) h3
  · rw [heq]
    simp only [updateJobState]
    have hA := cr_set_same (g.set j (jobUpdate (g.getD j .pending))) j .executing
      (by rw [hg0len]; exact hj) (by rw [hpend]; rfl)
    have hexec : ((g.set j (jobUpdate (g.getD j .pending))).set j .executing).getD j .pending
        = .executing := getD_set_self _ _ _ _ (by rw [hg0len]; exact hj)
    cases hskip : (env j).skip with
    | true =>
      have hB := cr_set_same ((g.set j (jobUpdate (g.getD j .pending))).set j .executing) j
        (.finished .successful) (by rw [hg1len]; exact hj) (by rw [hexec]; rfl)
      exact inv3_intro M ex.maxParallelJobs ex.jobCount ex.jobExecutionIndex
        (ex.runAllocatedJobCount + 1 - 1)
        (((g.set j (jobUpdate (g.getD j .pending))).set j .executing).set j
          (.finished .successful))
        (by omega) (by omega) h3
    | false =>
      have hB := cr_set_not_to_run ((g.set j (jobUpdate (g.getD j .pending))).set j .executing) j
        (.running (env j).runRounds) (by rw [hg1len]; exact hj) (by rw [hexec]; rfl) rfl
      exact inv3_intro M ex.maxParallelJobs ex.jobCount ex.jobExecutionIndex
        (ex.runAllocatedJobCount + 1)
        (((g.set j (jobUpdate (g.getD j .pending))).set j .executing).set j
          (.running (env j).runRounds))
        (by omega) (by omega) h3
  · rw [heq]
    exact inv3_intro M ex.maxParallelJobs ex.jobCount ex.jobExecutionIndex
      ex.runAllocatedJobCount (g.set j (jobUpdate (g.getD j .pending))) (by omega) h2 h3

theorem set_of_le {α : Type} (l : List α) (j : Nat) (a : α) (h : l.length ≤ j) :
    l.set j a = l := by
  induction l generalizing j with
  | nil => rfl
  | cons hd tl ih =>
    cases j with
    | zero => simp at h
    | succ j =>
      simp only [List.set]
      rw [ih j (by simpa using h)]

/-- Core lemma for the dependency invariant: overwriting position j preserves
it, provided the new value at j keeps a finished j finished, and j only
becomes non-pending when all of its parents are already terminal. -/
theorem invdepL_set (edges : List (Nat × Nat)) (g : List JobStateM) (j : Nat) (a : JobStateM)
    (h : ∀ pc ∈ edges, g.getD pc.2 .pending ≠ .pending →
      (g.getD pc.1 .pending).isFinished = true)
    (hpar : a ≠ .pending → ∀ p, (p, j) ∈ edges → (g.getD p .pending).isFinished = true)
    (hkeep : (g.getD j .pending).isFinished = true → a.isFinished = true) :
    ∀ pc ∈ edges, (g.set j a).getD pc.2 .pending ≠ .pending →
      ((g.set j a).getD pc.1 .pending).isFinished = true := by
  intro pc hm hne
  obtain ⟨p, c⟩ := pc
  by_cases hlen : j < g.length
  case neg =>
    rw [set_of_le g j a (Nat.le_of_not_lt hlen)] at hne ⊢
    exact h (p, c) hm hne
  case pos =>
    by_cases hcj : c = j
    · subst hcj
      rw [getD_set_self g c a .pending hlen] at hne
      by_cases hpj : p = c
      · subst hpj
        rw [getD_set_self g p a .pending hlen]
        exact hkeep (hpar hne p hm)
      · rw [getD_set_ne g p c a .pending hpj]
        exact hpar hne p hm
    · rw [getD_set_ne g c j a .pending hcj] at hne
      have hfin := h (p, c) hm hne
      by_cases hpj : p = j
      · subst hpj
        rw [getD_set_self g p a .pending hlen]
        exact hkeep hfin
      · rw [getD_set_ne g p j a .pending hpj]
        exact hfin

/-- Core lemma for the no-ParentsFailed invariant: overwriting position j with
a value that is not a ParentsFailed failure preserves it. -/
theorem nopfL_set (g : List JobStateM) (j : Nat) (a : JobStateM)
    (h : ∀ i, (g.getD i .pending).isParentsFailed = false)
    (ha : a.isParentsFailed = false) :
    ∀ i, ((g.set j a).getD i .pending).isParentsFailed = false := by
  intro i
  by_cases hlen : j < g.length
  · by_cases hij : i = j
    · subst hij
      rw [getD_set_self g i a .pending hlen]
      exact ha
    · rw [getD_set_ne g i j a .pending hij]
      exact h i
  · rw [set_of_le g j a (Nat.le_of_not_lt hlen)]
    exact h i

theorem isPF_finish_state (cmd : String) (code : Option Int) :
    (JobStateM.finished (match code with
      | some 0 => FinState.successful
      | some c => .failed (.nonZeroExitCode cmd c)
      | none => .failed (.signalTermination cmd))).isParentsFailed = false := by
  rcases code with _ | c
  · rfl
  · rcases c with n | n
    · cases n <;> rfl
    · rfl

theorem invdep_midStep (edges : List (Nat × Nat)) (ex : ExecStateM) (g : List JobStateM)
    (j : Nat) (h : InvDep edges (ex, g)) : InvDep edges (midStep edges (ex, g) j) := by
  have hL : ∀ pc ∈ edges, g.getD pc.2 .pending ≠ .pending →
      (g.getD pc.1 .pending).isFinished = true := h
  have h0 := invdepL_set edges g j (jobUpdate (g.getD j .pending)) hL
    (fun hne p hm => hL (p, j) hm (fun hp => hne (by rw [hp]; rfl)))
    (fun hf => by rw [isFinished_jobUpdate]; exact hf)
  simp only [midStep]
  rcases tryInit_spec edges ex (g.set j (jobUpdate (g.getD j .pending))) j with
    ⟨hrun, heq⟩ | ⟨hpend, hpar, hcap, heq⟩ | heq
  · rw [heq]
    exact invdepL_set edges _ j .finishing h0
      (fun _ p hm => h0 (p, j) hm (by rw [hrun]; decide))
      (fun hf => by rw [hrun] at hf; exact absurd hf (by decide))
  · rw [heq]
    exact invdepL_set edges _ j .executing h0
      (fun _ p hm => parentsAreFinished_elim edges _ j hpar p j hm rfl)
      (fun hf => by rw [hpend] at hf; exact absurd hf (by decide))
  · rw [heq]
    exact h0

theorem invdep_processJob (env : Nat → JobEnvM) (edges : List (Nat × Nat)) (ex : ExecStateM)
    (g : List JobStateM) (j : Nat) (h : InvDep edges (ex, g)) :
    InvDep edges (processJob env edges (ex, g) j) := by
  have hL : ∀ pc ∈ edges, g.getD pc.2 .pending ≠ .pending →
      (g.getD pc.1 .pending).isFinished = true := h
  have h0 := invdepL_set edges g j (jobUpdate (g.getD j .pending)) hL
    (fun hne p hm => hL (p, j) hm (fun hp => hne (by rw [hp]; rfl)))
    (fun hf => by rw [isFinished_jobUpdate]; exact hf)
  simp only [processJob]
  rcases tryInit_spec edges ex (g.set j (jobUpdate (g.getD j .pending))) j with
    ⟨hrun, heq⟩ | ⟨hpend, hpar, hcap, heq⟩ | heq
  · rw [heq]
    simp only [updateJobState]
    have h1 := invdepL_set edges _ j .finishing h0
      (fun _ p hm => h0 (p, j) hm (by rw [hrun]; decide))
      (fun hf => by rw [hrun] at hf; exact absurd hf (by decide))
    by_cases hlen : j < g.length
    · have hfin : ((g.set j (jobUpdate (g.getD j .pending))).set j .finishing).getD j .pending
          = .finishing := getD_set_self _ _ _ _ (by rw [List.length_set]; exact hlen)
      exact invdepL_set edges _ j _ h1
        (fun _ p hm => h1 (p, j) hm (by rw [hfin]; decide))
        (fun _ => rfl)
    · have hnoset : (g.set j (jobUpdate (g.getD j .pending))).set j .finishing
          = g.set j (jobUpdate (g.getD j .pending)) :=
        set_of_le (g.set j (jobUpdate (g.getD j .pending))) j .finishing
          (by rw [List.length_set]; exact Nat.le_of_not_lt hlen)
      exact invdepL_set edges _ j _ h1
        (fun _ p hm => h1 (p, j) hm (by rw [hnoset, hrun]; decide))
        (fun _ => rfl)
  · rw [heq]
    simp only [updateJobState]
    have h1 := invdepL_set edges _ j .executing h0
      (fun _ p hm => parentsAreFinished_elim edges _ j hpar p j hm rfl)
      (fun hf => by rw [hpend] at hf; exact absurd hf (by decide))
    have hparfin : ∀ p, (p, j) ∈ edges →
        (((g.set j (jobUpdate (g.getD j .pending))).set j .executing).getD p .pending).isFinished
          = true := by
      intro p hm
      by_cases hlen : j < g.length
      · have hexec : ((g.set j (jobUpdate (g.getD j .pending))).set j .executing).getD j .pending
            = .executing := getD_set_self _ _ _ _ (by rw [List.length_set]; exact hlen)
        exact h1 (p, j) hm (by rw [hexec]; decide)
      · have hnoset : (g.set j (jobUpdate (g.getD j .pending))).set j .executing
            = g.set j (jobUpdate (g.getD j .pending)) :=
          set_of_le (g.set j (jobUpdate (g.getD j .pending))) j .executing
            (by rw [List.length_set]; exact Nat.le_of_not_lt hlen)
        rw [hnoset]
        exact parentsAreFinished_elim edges _ j hpar p j hm rfl
    cases hskip : (env j).skip with
    | true =>
      exact invdepL_set edges _ j (.finished .successful) h1
        (fun _ p hm => hparfin p hm) (fun _ => rfl)
    | false =>
      exact invdepL_set edges _ j (.running (env j).runRounds) h1
        (fun _ p hm => hparfin p hm)
        (fun hf => by
          by_cases hlen : j < g.length
          · have hexec : ((g.set j (jobUpdate (g.getD j .pending))).set j
                .executing).getD j .pending = .executing :=
              getD_set_self _ _ _ _ (by rw [List.length_set]; exact hlen)
            rw [hexec] at hf
            exact absurd hf (by decide)
          · have hnoset : (g.set j (jobUpdate (g.getD j .pending))).set j .executing
                = g.set j (jobUpdate (g.getD j .pending)) :=
              set_of_le (g.set j (jobUpdate (g.getD j .pending))) j .executing
                (by rw [List.length_set]; exact Nat.le_of_not_lt hlen)
            rw [hnoset, hpend] at hf
            exact absurd hf (by decide))
  · rw [heq]
    exact h0

theorem nopf_midStep (edges : List (Nat × Nat)) (ex : ExecStateM) (g : List JobStateM)
    (j : Nat) (h : NoPF (ex, g)) : NoPF (midStep edges (ex, g) j) := by
  have hL : ∀ i, (g.getD i .pending).isParentsFailed = false := h
  have h0 := nopfL_set g j (jobUpdate (g.getD j .pending)) hL
    (by rw [isParentsFailed_jobUpdate]; exact hL j)
  simp only [midStep]
  rcases tryInit_spec edges ex (g.set j (jobUpdate (g.getD j .pending))) j with
    ⟨hrun, heq⟩ | ⟨hpend, hpar, hcap, heq⟩ | heq
  · rw [heq]
    exact nopfL_set _ j .finishing h0 rfl
  · rw [heq]
    exact nopfL_set _ j .executing h0 rfl
  · rw [heq]
    exact h0

theorem nopf_processJob (env : Nat → JobEnvM) (edges : List (Nat × Nat)) (ex : ExecStateM)
    (g : List JobStateM) (j : Nat) (h : NoPF (ex, g)) :
    NoPF (processJob env edges (ex, g) j) := by
  have hL : ∀ i, (g.getD i .pending).isParentsFailed = false := h
  have h0 := nopfL_set g j (jobUpdate (g.getD j .pending)) hL
    (by rw [isParentsFailed_jobUpdate]; exact hL j)
  simp only [processJob]
  rcases tryInit_spec edges ex (g.set j (jobUpdate (g.getD j .pending))) j with
    ⟨hrun, heq⟩ | ⟨hpend, hpar, hcap, heq⟩ | heq
  · rw [heq]
    simp only [updateJobState]
    exact nopfL_set _ j _ (nopfL_set _ j .finishing h0 rfl) (isPF_finish_state _ _)
  · rw [heq]
    simp only [updateJobState]
    cases hskip : (env j).skip with
    | true => exact nopfL_set _ j (.finished .successful) (nopfL_set _ j .executing h0 rfl) rfl
    | false =>
      exact nopfL_set _ j (.running (env j).runRounds) (nopfL_set _ j .executing h0 rfl) rfl
  · rw [heq]
    exact h0

theorem length_processJob (env : Nat → JobEnvM) (edges : List (Nat × Nat))
    (s : ExecStateM × List JobStateM) (j : Nat) :
    (processJob env edges s j).2.length = s.2.length := by
  obtain ⟨ex, g⟩ := s
  simp only [processJob]
  rcases tryInit_spec edges ex (g.set j (jobUpdate (g.getD j .pending))) j with
    ⟨hrun, heq⟩ | ⟨hpend, hpar, hcap, heq⟩ | heq
  · rw [heq]
    simp only [updateJobState]
    simp [List.length_set]
  · rw [heq]
    simp only [updateJobState]
    cases hskip : (env j).skip with
    | true => simp [List.length_set]
    | false => simp [List.length_set]
  · rw [heq]
    simp [List.length_set]

theorem inv3_reach (env : Nat → JobEnvM) (edges : List (Nat × Nat)) (n M : Nat)
    (s : ExecStateM × List JobStateM) (h : Reach env edges n M s) : Inv3 M s := by
  induction h with
  | init kg =>
    exact ⟨by simp [graphExecutorNew, countRunning_replicate_pending],
      by simp [graphExecutorNew], rfl⟩
  | mid s j hj hr ih => exact inv3_midStep M edges s.1 s.2 j hj ih
  | step s j hj hr ih => exact inv3_processJob M env edges s.1 s.2 j hj ih

theorem invdep_reach (env : Nat → JobEnvM) (edges : List (Nat × Nat)) (n M : Nat)
    (s : ExecStateM × List JobStateM) (h : Reach env edges n M s) : InvDep edges s := by
  induction h with
  | init kg =>
    intro pc hm hne
    exact absurd (getD_replicate_pending n pc.2) hne
  | mid s j hj hr ih => exact invdep_midStep edges s.1 s.2 j ih
  | step s j hj hr ih => exact invdep_processJob env edges s.1 s.2 j ih

theorem nopf_reach (env : Nat → JobEnvM) (edges : List (Nat × Nat)) (n M : Nat)
    (s : ExecStateM × List JobStateM) (h : Reach env edges n M s) : NoPF s := by
  induction h with
  | init kg =>
    intro i
    rw [getD_replicate_pending n i]
    rfl
  | mid s j hj hr ih => exact nopf_midStep edges s.1 s.2 j ih
  | step s j hj hr ih => exact nopf_processJob env edges s.1 s.2 j ih

theorem reach_foldl (env : Nat → JobEnvM) (edges : List (Nat × Nat)) (n M : Nat)
    (s : ExecStateM × List JobStateM) (l : List Nat) (hl : ∀ j ∈ l, j < s.2.length)
    (h : Reach env edges n M s) :
    Reach env edges n M (l.foldl (processJob env edges) s) := by
  induction l generalizing s with
  | nil => exact h
  | cons hd tl ih =>
    simp only [List.foldl]
    apply ih
    · intro j hj
      rw [length_processJob]
      exact hl j (List.mem_cons_of_mem _ hj)
    · exact Reach.step s hd (hl hd (List.mem_cons_self _ _)) h

theorem reach_executeRound (env : Nat → JobEnvM) (edges : List (Nat × Nat)) (n M : Nat)
    (s : ExecStateM × List JobStateM) (h : Reach env edges n M s) :
    Reach env edges n M (executeRound env edges s) :=
  reach_foldl env edges n M s _ (fun _ hj => List.mem_range.mp hj) h

theorem reach_executeLoop (env : Nat → JobEnvM) (edges : List (Nat × Nat)) (n M : Nat)
    (fuel : Nat) (s : ExecStateM × List JobStateM) (h : Reach env edges n M s) :
    Reach env edges n M (executeLoop env edges fuel s) := by
  induction fuel generalizing s with
  | zero => exact h
  | succ fuel ih =>
    simp only [executeLoop]
    by_cases hc : s.2.all JobStateM.isFinished = true
    · simp only [hc, if_true]
      exact h
    · simp only [hc, if_false]
      exact ih _ (reach_executeRound env edges n M s h)

/-! #### Claims C1, C2, C3, C5 -/

/-- Counterexample to C1: in a concrete two-job run with an edge from job 0
to job 1, after two executor rounds job 1 is Running while its parent job 0
is terminal in the Failed state — the executor admits a child as soon as all
parents are terminal, with no check that they are Successful. -/
theorem C1_counterexample :
    (0, 1) ∈ edgesC1 ∧
    (executeRound envC1 edgesC1 (executeRound envC1 edgesC1 initC1)).2
      = [.finished (.failed (.nonZeroExitCode "p" 1)), .running 0] := by
  constructor
  · decide
  · decide

/-- C1 (amended): for every edge parent→child, at every reachable executor
state the child has left Pending only if every parent is in a terminal state;
no requirement that the parents be Successful is enforced when the child
enters Running. -/
theorem C1_child_gating (env : Nat → JobEnvM) (edges : List (Nat × Nat)) (n M : Nat)
    (s : ExecStateM × List JobStateM) (h : Reach env edges n M s) : InvDep edges s :=
  invdep_reach env edges n M s h

/-- Witness for C1 at a concrete reachable state: after visiting both jobs
once, the dependency gating invariant holds. -/
theorem C1_child_gating_witness :
    InvDep edgesC1 (processJob envC1 edgesC1 (processJob envC1 edgesC1 initC1 0) 1) :=
  C1_child_gating envC1 edgesC1 2 2 _
    (Reach.step _ 1 (by decide) (Reach.step _ 0 (by decide) (Reach.init false)))

/-- Counterexample to C2: in a concrete run where job 0 fails with exit code
1 and job 1 depends on it, the executor executes job 1 anyway and it finishes
Successful — it is not transitioned to Failed with ParentsFailed and it is
not skipped. -/
theorem C2_counterexample :
    executeResult envC1 edgesC1 3 initC1
      = some [.finished (.failed (.nonZeroExitCode "p" 1)), .finished .successful] := by
  decide

/-- C2 (amended): the graph executor never produces a job in the Failed state
with the ParentsFailed error (the error variant is declared in the source but
never constructed); instead, a Pending job whose parents are all terminal —
Failed and Terminated parents included — is admitted for normal execution
whenever a run slot is free. -/
theorem C2_no_parents_failed :
    (∀ (env : Nat → JobEnvM) (edges : List (Nat × Nat)) (n M : Nat)
      (s : ExecStateM × List JobStateM), Reach env edges n M s → NoPF s) ∧
    (∀ (edges : List (Nat × Nat)) (ex : ExecStateM) (g : List JobStateM) (j : Nat),
      g.getD j .pending = .pending → parentsAreFinished edges g j = true →
      ex.runAllocatedJobCount < ex.maxParallelJobs →
      tryInitializeJobStateUpdate edges ex g j
        = ({ ex with runAllocatedJobCount := ex.runAllocatedJobCount + 1 },
            g.set j .executing, some .pending)) := by
  constructor
  · exact fun env edges n M s h => nopf_reach env edges n M s h
  · intro edges ex g j h1 h2 h3
    unfold tryInitializeJobStateUpdate
    rw [h1]
    simp [h2, h3]

/-- Witness for C2: no ParentsFailed state in a concrete reachable state, and
a concrete pending job with a Failed (terminal) parent is admitted. -/
theorem C2_no_parents_failed_witness :
    NoPF (processJob envC1 edgesC1 (processJob envC1 edgesC1 initC1 0) 1) ∧
    tryInitializeJobStateUpdate edgesC1 (graphExecutorNew 2 2 false)
      [JobStateM.finished (.failed (.nonZeroExitCode "p" 1)), .pending] 1
      = ({ graphExecutorNew 2 2 false with runAllocatedJobCount := 1 },
          [JobStateM.finished (.failed (.nonZeroExitCode "p" 1)), .executing],
          some .pending) := by
  constructor
  · exact C2_no_parents_failed.1 envC1 edgesC1 2 2 _
      (Reach.step _ 1 (by decide) (Reach.step _ 0 (by decide) (Reach.init false)))
  · exact C2_no_parents_failed.2 edgesC1 (graphExecutorNew 2 2 false)
      [JobStateM.finished (.failed (.nonZeroExitCode "p" 1)), .pending] 1
      (by decide) (by decide) (by decide)

/-- C3: at every reachable executor state — the intermediate states with a
parked transition placeholder included — the number of jobs in the Running
state is at most max-parallel-jobs, and so is the allocated run slot count.
The admission check and the slot increment form one atomic step of the model,
mirroring the write lock held across check and increment in the source. -/
theorem C3_running_bounded (env : Nat → JobEnvM) (edges : List (Nat × Nat)) (n M : Nat)
    (s : ExecStateM × List JobStateM) (h : Reach env edges n M s) :
    countRunning s.2 ≤ M ∧ s.1.runAllocatedJobCount ≤ M := by
  obtain ⟨h1, h2, h3⟩ := inv3_reach env edges n M s h
  omega

/-- Witness for C3 at a concrete reachable state after three job visits. -/
theorem C3_running_bounded_witness :
    countRunning (processJob envC1 edgesC1
      (processJob envC1 edgesC1 (processJob envC1 edgesC1 initC1 0) 1) 0).2 ≤ 2 :=
  (C3_running_bounded envC1 edgesC1 2 2 _
    (Reach.step _ 0 (by decide)
      (Reach.step _ 1 (by decide) (Reach.step _ 0 (by decide) (Reach.init false))))).1

/-- Counterexample to C5: a one-job graph whose job exits with code 1 ends in
the Failed state, yet execute returns Ok with the final graph — no error is
returned for a Failed job, with keep-going false (the flag is discarded by
the constructor). -/
theorem C5_counterexample :
    executeResult envC5 [] 2 initC5
      = some [.finished (.failed (.nonZeroExitCode "f" 1))] := by
  decide

/-- C5 (amended): the keep-going flag is accepted by the constructor and
ignored, and in the modelled environment (no polling or progress
infrastructure failures) execute only returns once every job is terminal and
then returns Ok with the final graph, regardless of whether jobs ended
Failed; no error is derived from Failed jobs. -/
theorem C5_keep_going_ignored :
    (∀ (n M : Nat) (kg1 kg2 : Bool), graphExecutorNew n M kg1 = graphExecutorNew n M kg2) ∧
    (∀ (env : Nat → JobEnvM) (edges : List (Nat × Nat)) (fuel : Nat)
      (s : ExecStateM × List JobStateM) (g : List JobStateM),
      executeResult env edges fuel s = some g → g.all JobStateM.isFinished = true) := by
  constructor
  · intro n M kg1 kg2
    rfl
  · intro env edges fuel s g h
    simp only [executeResult] at h
    by_cases hc : (executeLoop env edges fuel s).2.all JobStateM.isFinished = true
    · rw [if_pos hc] at h
      cases h
      exact hc
    · rw [if_neg hc] at h
      cases h

/-- Witness for C5: a returned graph from a concrete run is all-terminal. -/
theorem C5_keep_going_ignored_witness :
    [JobStateM.finished (.failed (.nonZeroExitCode "f" 1))].all JobStateM.isFinished = true :=
  C5_keep_going_ignored.2 envC5 [] 2 initC5
    [JobStateM.finished (.failed (.nonZeroExitCode "f" 1))] (by decide)

/-! #### Claim C4: job graph construction does not coalesce shared steps -/

/-- C4: evaluating JobGraph::new on a specification in which the step "P" is
referenced as parent from two downstream input slots of the step "S" yields
three job nodes — "P" receives two distinct nodes (ids 1 and 2, each with a
dependency edge into "S") instead of the single coalesced node the claim
requires, so the step would be scheduled and executed twice. -/
theorem C4_no_dedup_eval :
    (jobGraphNew dupSpecC4).nodes.map StepInfoM.name = ["S", "P", "P"] ∧
    ((jobGraphNew dupSpecC4).nodes.map StepInfoM.name).count "P" = 2 ∧
    (jobGraphNew dupSpecC4).edges = [(1, 0), (2, 0)] := by
  refine ⟨?_, ?_, ?_⟩ <;> decide

/-! #### Claim C10: parse always persists the inspection file -/

/-- C10: every parse call whose temporary file operations succeed first
creates, persists and fills the inspection file with the raw input; when the
syntax check succeeds the file is rewritten with the pretty-printed JSON
(also on calls that succeed overall); no inspection file is ever deleted; and
the call succeeds exactly when the syntax check, the pretty rewrite and the
typed decoding all succeed. -/
theorem C10_parse_inspection_file (input : String) (io : ParseIo) :
    (io.keepOk = true → ∀ id, FileEvent.deleteTemp id ∉ (wsParse input io).2) ∧
    (io.createOk = true → io.keepOk = true → io.writeRawOk = true →
      (wsParse input io).2.take 3
          = [.createTemp 0, .keepTemp 0, .writeFile 0 input] ∧
      (∀ p, io.pretty = some p → io.writePrettyOk = true →
        FileEvent.writeFile 0 p ∈ (wsParse input io).2) ∧
      ((wsParse input io).1 = true ↔
        (io.pretty.isSome = true ∧ io.writePrettyOk = true ∧ io.typedDecodeOk = true))) := by
  obtain ⟨co, ko, wr, pr, wp, td⟩ := io
  cases co <;> cases ko <;> cases wr <;> cases wp <;> cases td <;> rcases pr with _ | p <;>
    simp [wsParse, withSourceIndicationEvents]

/-- Witness for C10 at a concrete successful parse call: the pretty document
is written to the kept inspection file and the call succeeds. -/
theorem C10_parse_inspection_file_witness :
    FileEvent.writeFile 0 "pretty" ∈ (wsParse "raw" ioC10).2 ∧
    (wsParse "raw" ioC10).1 = true := by
  have h := C10_parse_inspection_file "raw" ioC10
  refine ⟨(h.2 rfl rfl rfl).2.1 "pretty" rfl rfl, ?_⟩
  exact ((h.2 rfl rfl rfl).2.2).mpr ⟨rfl, rfl, rfl⟩

end Nixflow
